import Mathlib

/-!
Shallow embedding of the CloudFormation stack deployment orchestrator
(`deploy-cloudformation-stacks/deploy_with_lambda_call.py`).

Python dictionaries are modelled as association lists with insertion-order
iteration and update-in-place semantics (`lookupKV`, `insertKV`); stack /
global names are Lean `String`s.  Filesystem access, YAML parsing, SHA-256
hashing and the AWS clients are external collaborators of the code under
verification; they enter the model as explicit inputs (the parsed template,
the version table, an opaque but deterministic hash function, a per-stack
outcome oracle).
-/

namespace DeployCfn

/-- Python `dict[k]` / `dict.get(k)`: first (unique-key) association lookup. -/
def lookupKV {α : Type} (m : List (String × α)) (k : String) : Option α :=
  match m with
  | [] => none
  | (k', v) :: rest => if k' = k then some v else lookupKV rest k

/-- Python `k in dict`. -/
def memKV {α : Type} (m : List (String × α)) (k : String) : Bool :=
  (lookupKV m k).isSome

/-- Python `dict[k] = v`: replace in place, keeping insertion order; append if new. -/
def insertKV {α : Type} (m : List (String × α)) (k : String) (v : α) :
    List (String × α) :=
  match m with
  | [] => [(k, v)]
  | (k', v') :: rest => if k' = k then (k, v) :: rest else (k', v') :: insertKV rest k v

/-- The keys of a Python dict, in insertion order. -/
def keysKV {α : Type} (m : List (String × α)) : List String := m.map Prod.fst

/-! ## Version Resolver (`resolve_version_with_hash_support`) -/

/-- Python `repo.rsplit("#", 1)[1]`: the part after the last `#`. -/
def afterLastHash (s : String) : String :=
  String.mk ((s.toList.reverse.takeWhile (fun c => c ≠ '#')).reverse)

/-- `resolve_version_with_hash_support(repo, repo_versions, key_name)`:
hash-aware version lookup.  `key_name` is only used by the source for logging. -/
def resolve_version_with_hash_support (repo : String)
    (repo_versions : List (String × String)) : Option String :=
  if repo.toList.contains '#' then
    match lookupKV repo_versions repo with
    | some v => some v
    | none =>
      match lookupKV repo_versions (afterLastHash repo) with
      | some v => some v
      | none => none
  else
    match lookupKV repo_versions repo with
    | some full_sha => some (full_sha.take 7)
    | none => none

/-- The Version Resolver contract as the spec words it (§4.2): compound keys
resolve exactly and verbatim, falling back to the bare component key verbatim;
bare repo ids resolve exactly with the first seven characters returned;
otherwise not-found. -/
def versionResolverContract (repoId : String)
    (versionTable : List (String × String)) : Option String :=
  if repoId.toList.contains '#' then
    match lookupKV versionTable repoId with
    | some v => some v
    | none => lookupKV versionTable (afterLastHash repoId)
  else
    (lookupKV versionTable repoId).map (fun s => s.take 7)

/-! ## Stack-name comparison (`strip_environment_suffix`, `compare_stack_names`) -/

def ENVIRONMENT_PRIORITY : List String :=
  ["development", "staging", "production", "devops"]

/-- The suffix-stripping loop of `strip_environment_suffix`, on character lists:
the first environment `env` with `name.endswith("-" + env)` is stripped
(`stack_name[: -len(env) - 1]`), otherwise the name is returned unchanged. -/
def stripSuffixChars (envs : List (List Char)) (name : List Char) : List Char :=
  match envs with
  | [] => name
  | env :: rest =>
    if ('-' :: env) <:+ name then name.take (name.length - (env.length + 1))
    else stripSuffixChars rest name

/-- `strip_environment_suffix(stack_name)`. -/
def strip_environment_suffix (stack_name : String) : String :=
  String.mk (stripSuffixChars (ENVIRONMENT_PRIORITY.map String.toList) stack_name.toList)

/-- `compare_stack_names(stack_name1, stack_name2)`. -/
def compare_stack_names (stack_name1 stack_name2 : String) : Bool :=
  strip_environment_suffix stack_name1 == strip_environment_suffix stack_name2

/-! ## Globals and parameter directives -/

/-- One piece of a Python `string.Template` pattern, in parsed form: literal
text or an identifier placeholder. -/
inductive TplPart
  | text (t : String)
  | ident (i : String)
deriving DecidableEq

/-- `template.get_identifiers()`: the identifiers occurring in a pattern. -/
def identsOf (parts : List TplPart) : List String :=
  parts.filterMap (fun p => match p with | .ident i => some i | .text _ => none)

/-- The raw pattern text a parsed template came from. -/
def renderTpl (parts : List TplPart) : String :=
  parts.foldr
    (fun p acc =>
      (match p with
       | .text t => t
       | .ident i => "$\x7b" ++ i ++ "\x7d") ++ acc) ""

/-- A value of the globals mapping or of a stack `parameters` entry: a plain
value (carried as its `str()` image) or a directive dict holding exactly one
of the keys `$ref` / `$sub` / `$version` (the shapes of the data model), or
some other dict (carried as its `repr` image). -/
inductive GVal
  | str (s : String)
  | refDir (k : String)
  | subDir (parts : List TplPart)
  | versionDir (repo : String)
  | otherDict (r : String)
deriving DecidableEq

/-- The Python `str()` image of a value (directive dicts render as their repr). -/
def GVal.pyStr : GVal → String
  | .str s => s
  | .refDir k => "\x7b'$ref': '" ++ k ++ "'\x7d"
  | .subDir parts => "\x7b'$sub': '" ++ renderTpl parts ++ "'\x7d"
  | .versionDir r => "\x7b'$version': '" ++ r ++ "'\x7d"
  | .otherDict r => r

/-- Whether a value is a plain string (the line-427 `isinstance(value, str)` test). -/
def GVal.isStr : GVal → Bool
  | .str _ => true
  | _ => false

/-- Whether a directive value refers to the global named `key` (directly via
`$ref`, or as a `$sub` identifier). -/
def GVal.mentionsKey (v : GVal) (key : String) : Bool :=
  match v with
  | .refDir k => k == key
  | .subDir parts => (identsOf parts).contains key
  | _ => false

/-- `template.safe_substitute(globals)`: replace each identifier that is a key
of `globals` by the `str()` image of its value; leave missing ones in place. -/
def safeSubstitute (parts : List TplPart) (globals : List (String × GVal)) : String :=
  parts.foldr
    (fun p acc =>
      (match p with
       | .text t => t
       | .ident i =>
         match lookupKV globals i with
         | some v => v.pyStr
         | none => "$\x7b" ++ i ++ "\x7d") ++ acc) ""

/-! ## Stack definitions and templates -/

/-- One entry of the configuration's `stacks` list.  An absent or empty
`stack_name` is modelled as `""` (both are falsy at line 334). -/
structure StackDef where
  stack_name : String
  template_file : Option String
  parameters : List (String × GVal)
  dependencies : List String
  disabled : Bool
deriving DecidableEq

/-- `kebap_to_snake_case(name)`. -/
def kebap_to_snake_case (name : String) : String :=
  String.mk (name.toList.map (fun c => if c = '-' then '_' else c.toLower))

/-- `calc_template_file_name(stack_name)`. -/
def calc_template_file_name (stack_name : String) : String :=
  kebap_to_snake_case stack_name ++ ".yaml"

/-- `calc_stack_name(stack_name, config_global_environment)`. -/
def calc_stack_name (stack_name : String) (config_global_environment : Option String) :
    String :=
  match config_global_environment with
  | some env => stack_name ++ "-" ++ env
  | none => stack_name

/-- Python truthiness of an optional string (`None` and `""` are falsy). -/
def pyTruthy (s : Option String) : Bool :=
  match s with
  | none => false
  | some s => !s.isEmpty

def POEMAI_TIMESTAMP_KEY : String := "__poemai_timestamp__"

/-- Outcome of YAML-parsing a template body: a hard parse error (the source
exits the process), `None`, a non-mapping document, or a mapping whose
`Parameters` section declares the given parameter names. -/
inductive TemplateParse
  | invalid
  | empty
  | nonDict
  | dict (parameterNames : List String)
deriving DecidableEq

/-- A template file as the `find_template_file` / file-read collaborators
deliver it: its resolved path, raw body, and parse outcome. -/
structure TemplateFile where
  path : String
  body : String
  parse : TemplateParse
deriving DecidableEq

/-! ## Parameter Materializer (`create_message`) -/

/-- The message `create_message` constructs for one stack (lines 434-440). -/
structure ResolvedMessage where
  stack_name : String
  template : String
  parameters : List (String × String)
  template_content_hash : String
deriving DecidableEq

/-- The fatal errors `create_message` can raise, with the context the source
interpolates into each message. -/
inductive CMError
  | templateNotFound (file_name : String)
  | yamlParseExit (path : String)
  | emptyTemplate (path : String)
  | nonDictTemplate (path : String)
  | refNotFound (ref : String) (stack_name : String)
  | subNoIdentifiers (stack_name : String)
  | subIdentifierMissing (identifier : String) (stack_name : String)
  | versionNotFound (repo : String)
  | unsupportedParamShape
  | missingParams (stack_name : String) (template_path : String) (missing : List String)
  | superfluousParams (stack_name : String) (template_path : String) (extra : List String)
  | paramNotString (key : String) (stack_name : String) (template_path : String)
deriving DecidableEq

/-- One iteration body of the `for key, value in parameters.items()` loop
(lines 347-391): resolve a single parameter value to its string. -/
def resolveParamValue (stack_name : String) (globals : List (String × GVal))
    (repo_versions : List (String × String)) (v : GVal) : Except CMError String :=
  match v with
  | .refDir ref =>
    match lookupKV globals ref with
    | some referred_value => .ok referred_value.pyStr
    | none => .error (.refNotFound ref stack_name)
  | .subDir parts =>
    let identifiers := identsOf parts
    if identifiers.isEmpty then .error (.subNoIdentifiers stack_name)
    else
      match identifiers.find? (fun i => !(memKV globals i)) with
      | some i => .error (.subIdentifierMissing i stack_name)
      | none => .ok (safeSubstitute parts globals)
  | .versionDir repo =>
    match lookupKV repo_versions repo with
    | some full_sha => .ok (full_sha.take 7)
    | none => .error (.versionNotFound repo)
  | .str s => .ok s
  | .otherDict _ => .error .unsupportedParamShape

/-- The parameter resolution loop, building `parameters_to_use` in insertion
order (resolved values are plain strings). -/
def resolveParamsLoop (stack_name : String) (globals : List (String × GVal))
    (repo_versions : List (String × String)) (acc : List (String × GVal)) :
    List (String × GVal) → Except CMError (List (String × GVal))
  | [] => .ok acc
  | (key, value) :: rest =>
    match resolveParamValue stack_name globals repo_versions value with
    | .error e => .error e
    | .ok s => resolveParamsLoop stack_name globals repo_versions (insertKV acc key (.str s)) rest

/-- The loop of the backfill step: `params` is the snapshot of the supplied
parameters (the iteration set is `declared - keys(params)`, computed once),
`acc` the growing parameter dict. -/
def backfillLoop (globals : List (String × GVal)) (params : List (String × GVal)) :
    List String → List (String × GVal) → List (String × GVal)
  | [], acc => acc
  | p :: rest, acc =>
    if memKV params p then backfillLoop globals params rest acc
    else
      match lookupKV globals p with
      | some v => backfillLoop globals params rest (insertKV acc p v)
      | none => backfillLoop globals params rest acc

/-- Backfill (lines 395-403): every template-declared parameter not supplied by
the stack is taken verbatim from `globals` when present there. -/
def backfillParams (globals : List (String × GVal)) (declared : List String)
    (params : List (String × GVal)) : List (String × GVal) :=
  backfillLoop globals params declared params

/-- Lines 393-442 of `create_message`: backfill declared-but-unsupplied
parameters from globals, run the missing / superfluous / string checks, and
assemble the message. -/
def finalizeParams (hashHex : String → String) (tf : TemplateFile)
    (parameter_names_in_template : List String) (stack_name : String)
    (globals : List (String × GVal)) (resolved : List (String × GVal)) :
    Except CMError (Option ResolvedMessage) :=
  let parameters_to_use := backfillParams globals parameter_names_in_template resolved
  let missing_parameters :=
    parameter_names_in_template.filter (fun p => !(memKV parameters_to_use p))
  if !missing_parameters.isEmpty then
    .error (.missingParams stack_name tf.path missing_parameters)
  else
    let unknown_parameters :=
      (keysKV parameters_to_use).filter
        (fun k => !(parameter_names_in_template.contains k))
    if !unknown_parameters.isEmpty then
      .error (.superfluousParams stack_name tf.path unknown_parameters)
    else
      match parameters_to_use.find? (fun kv => !(kv.2.isStr)) with
      | some kv => .error (.paramNotString kv.1 stack_name tf.path)
      | none =>
        .ok (some
          { stack_name := stack_name
            template := tf.body
            parameters := parameters_to_use.map (fun kv => (kv.1, kv.2.pyStr))
            template_content_hash := hashHex tf.body })

/-- Lines 295-298: the stack's template file name, defaulted from the stack
name when unset (or falsy). -/
def templateFileNameOf (stack : StackDef) : String :=
  match stack.template_file with
  | some f => if f.isEmpty then calc_template_file_name stack.stack_name else f
  | none => calc_template_file_name stack.stack_name

/-- Line 338: the environment-suffixed stack name (`environment` truthy). -/
def fullStackName (stack : StackDef) (environment : Option String) : String :=
  if pyTruthy environment then stack.stack_name ++ "-" ++ environment.getD ""
  else stack.stack_name

/-- `create_message(stack, globals, config_file_dir, environment, repo_versions,
referenced_globals)`.  The filesystem search plus file read plus YAML parse is
the `findTemplate` collaborator; SHA-256 is the `hashHex` collaborator;
`referenced_globals` (log-only bookkeeping feeding the unused-globals warning)
is not modelled.  `.ok none` models the skip returns (unnamed or disabled
stack). -/
def create_message (hashHex : String → String)
    (findTemplate : String → Option TemplateFile) (stack : StackDef)
    (globals : List (String × GVal)) (environment : Option String)
    (repo_versions : List (String × String)) :
    Except CMError (Option ResolvedMessage) :=
  let template_file_name := templateFileNameOf stack
  match findTemplate template_file_name with
  | none => .error (.templateNotFound template_file_name)
  | some tf =>
    match tf.parse with
    | .invalid => .error (.yamlParseExit tf.path)
    | .empty => .error (.emptyTemplate tf.path)
    | .nonDict => .error (.nonDictTemplate tf.path)
    | .dict parameter_names_in_template =>
      if stack.stack_name.isEmpty then .ok none
      else
        let stack_name := fullStackName stack environment
        if stack.disabled then .ok none
        else
          match resolveParamsLoop stack_name globals repo_versions [] stack.parameters with
          | .error e => .error e
          | .ok resolved =>
            finalizeParams hashHex tf parameter_names_in_template stack_name globals resolved

/-! ## Global Variable Resolver (`prepare_messages`, lines 480-558) -/

/-- The configuration file's top level, as `prepare_messages` consumes it.
`repo_versions_file` loading is a filesystem collaborator: the loaded version
table enters the model as an explicit argument. -/
structure Config where
  environment : Option String
  globals : List (String × GVal)
  stackDefs : List StackDef
deriving DecidableEq

/-- The fatal errors of the globals-resolution prefix of `prepare_messages`. -/
inductive PrepError
  | versionNotFound (repo : String) (known_keys : List String)
  | subMissingIdentifier (identifiers : List String) (key : String)
  | refMissing (global_key : String) (key : String)
  | environmentNotFound
deriving DecidableEq

/-- First pass (lines 507-523): every `$version` directive is resolved through
`resolve_version_with_hash_support`; an unresolvable repo is fatal.  The loop
walks the dict keys in insertion order reading the current value of each. -/
def versionPassLoop (repo_versions : List (String × String)) :
    List String → List (String × GVal) → Except PrepError (List (String × GVal))
  | [], globals => .ok globals
  | key :: rest, globals =>
    match lookupKV globals key with
    | some (GVal.versionDir repo) =>
      match resolve_version_with_hash_support repo repo_versions with
      | some resolved_version =>
        versionPassLoop repo_versions rest (insertKV globals key (.str resolved_version))
      | none => .error (.versionNotFound repo (keysKV repo_versions))
    | _ => versionPassLoop repo_versions rest globals

/-- Second pass (lines 525-540): every `$sub` directive is substituted over the
current globals after checking all its identifiers are globals keys. -/
def subPassLoop :
    List String → List (String × GVal) → Except PrepError (List (String × GVal))
  | [], globals => .ok globals
  | key :: rest, globals =>
    match lookupKV globals key with
    | some (GVal.subDir parts) =>
      let identifiers := identsOf parts
      if identifiers.all (fun i => memKV globals i) then
        subPassLoop rest (insertKV globals key (.str (safeSubstitute parts globals)))
      else .error (.subMissingIdentifier identifiers key)
    | _ => subPassLoop rest globals

/-- Third pass (lines 541-553): every `$ref` directive is replaced by the
current value of its target key (which may itself still be a directive). -/
def refPassLoop :
    List String → List (String × GVal) → Except PrepError (List (String × GVal))
  | [], globals => .ok globals
  | key :: rest, globals =>
    match lookupKV globals key with
    | some (GVal.refDir global_key) =>
      match lookupKV globals global_key with
      | some v => refPassLoop rest (insertKV globals key v)
      | none => .error (.refMissing global_key key)
    | _ => refPassLoop rest globals

/-- The globals-resolution prefix of `prepare_messages` (lines 484-558): inject
the timestamp global, inject `Environment` when the config has an environment,
run the three directive passes in order, and only then raise the
missing-environment error (line 555). -/
def prepareGlobals (config : Config) (repo_versions : List (String × String))
    (timestamp : String) : Except PrepError (List (String × GVal)) :=
  let globals := insertKV config.globals POEMAI_TIMESTAMP_KEY (.str timestamp)
  let globals :=
    match config.environment with
    | some env => insertKV globals "Environment" (.str env)
    | none => globals
  match versionPassLoop repo_versions (keysKV globals) globals with
  | .error e => .error e
  | .ok globals =>
    match subPassLoop (keysKV globals) globals with
    | .error e => .error e
    | .ok globals =>
      match refPassLoop (keysKV globals) globals with
      | .error e => .error e
      | .ok globals =>
        match config.environment with
        | none => .error .environmentNotFound
        | some _ => .ok globals

/-! ## Dependency Graph Builder (`prepare_messages`, lines 559-621) -/

/-- A directed graph over stack names; an edge `(a, b)` means `a` depends on
`b`.  Mirrors the `networkx.DiGraph` the source builds. -/
structure DepGraph where
  nodes : List String
  edges : List (String × String)
deriving DecidableEq

/-- `networkx` `add_node`: append the node if it is not present yet. -/
def addNode (nodes : List String) (n : String) : List String :=
  if n ∈ nodes then nodes else nodes ++ [n]

inductive GraphError
  | dependencyNotFound (dependency_full_name : String)
  | dependencyDisabled (stack_name : String) (dependency_full_name : String)
deriving DecidableEq

/-- The `for dependency in stack["dependencies"]` loop (lines 602-621). -/
def depLoop (stack_names disabled_stack_names : List String) (env : Option String)
    (stack_name : String) : List String → DepGraph → Except GraphError DepGraph
  | [], g => .ok g
  | dependency :: rest, g =>
    let dependency_full_name := calc_stack_name dependency env
    if dependency_full_name ∈ stack_names then
      if dependency_full_name ∈ disabled_stack_names then
        .error (.dependencyDisabled stack_name dependency_full_name)
      else
        depLoop stack_names disabled_stack_names env stack_name rest
          { nodes := addNode g.nodes dependency_full_name
            edges := g.edges ++ [(stack_name, dependency_full_name)] }
    else .error (.dependencyNotFound dependency_full_name)

/-- The graph-building slice of the `for stack in config["stacks"]` loop. -/
def buildLoop (stack_names disabled_stack_names : List String) (env : Option String) :
    List StackDef → DepGraph → Except GraphError DepGraph
  | [], g => .ok g
  | stack :: rest, g =>
    let stack_name := calc_stack_name stack.stack_name env
    match depLoop stack_names disabled_stack_names env stack_name stack.dependencies
        { g with nodes := addNode g.nodes stack_name } with
    | .error e => .error e
    | .ok g => buildLoop stack_names disabled_stack_names env rest g

/-- Build the dependency graph from the configuration's stacks, validating that
every dependency names a known stack and no dependency is disabled. -/
def buildDependencyGraph (stackDefs : List StackDef) (env : Option String) :
    Except GraphError DepGraph :=
  let stack_names := stackDefs.map (fun s => calc_stack_name s.stack_name env)
  let disabled_stack_names :=
    (stackDefs.filter (fun s => s.disabled)).map (fun s => calc_stack_name s.stack_name env)
  buildLoop stack_names disabled_stack_names env stackDefs { nodes := [], edges := [] }

/-! ## Generation Scheduler (`prepare_messages`, lines 629-647) -/

/-- Does `n` have no incoming edge from a still-remaining node?  (The peeling
condition of `networkx.topological_generations` on the induced subgraph.) -/
def noIncoming (edges : List (String × String)) (remaining : List String) (n : String) :
    Bool :=
  edges.all (fun e => !(e.2 == n && remaining.contains e.1))

/-- `list(nx.topological_generations(graph))`: repeatedly peel the nodes with
no incoming edge among the remaining ones; `none` models the
`NetworkXUnfeasible` error raised on a cyclic graph. -/
def topoGenerationsAux (edges : List (String × String)) :
    Nat → List String → Option (List (List String))
  | 0, remaining => if remaining.isEmpty then some [] else none
  | fuel + 1, remaining =>
    if remaining.isEmpty then some []
    else
      let layer := remaining.filter (noIncoming edges remaining)
      if layer.isEmpty then none
      else
        match topoGenerationsAux edges fuel
            (remaining.filter (fun n => !(noIncoming edges remaining n))) with
        | none => none
        | some gens => some (layer :: gens)

/-- Lines 629-647: the generations are computed by `topological_generations`
and then iterated in reversed order; generation 0 of the result is the last
peeled layer.  Each peel removes at least one node, so `g.nodes.length` fuel
is exact. -/
def scheduleGenerations (g : DepGraph) : Option (List (List String)) :=
  match topoGenerationsAux g.edges g.nodes.length g.nodes with
  | none => none
  | some generations => some generations.reverse

/-- The generation index of a stack: position of the first generation
containing it. -/
def genIndexOf : List (List String) → String → Option Nat
  | [], _ => none
  | g :: rest, n => if n ∈ g then some 0 else (genIndexOf rest n).map (· + 1)

/-! ## Deployment Driver (`deploy`, lines 772-875) -/

/-- One breadth step of reachability along the `depends-on` edges. -/
def stepSuccs (edges : List (String × String)) (frontier : List String) : List String :=
  edges.filterMap (fun e => if e.1 ∈ frontier then some e.2 else none)

/-- Fuel-bounded reflexive-transitive closure accumulation. -/
def closureAux (edges : List (String × String)) : Nat → List String → List String
  | 0, acc => acc
  | fuel + 1, acc =>
    let fresh := (stepSuccs edges acc).filter (fun n => !(acc.contains n))
    if fresh.isEmpty then acc else closureAux edges fuel (acc ++ fresh.dedup)

/-- `nx.descendants(dependency_graph, n)`: every node reachable from `n`
through at least one edge — the transitive dependencies of stack `n`. -/
def descendants (g : DepGraph) (n : String) : List String :=
  closureAux g.edges (g.nodes.length + g.edges.length) (stepSuccs g.edges [n])

/-- The mutable run state of `deploy`: which stacks have been dispatched to the
worker lambda, and the success / failure accumulators. -/
structure RunState where
  dispatched : List String
  successful_stacks : List String
  failed_stacks : List String
deriving DecidableEq

inductive DeployError
  | missingDependencies (stack : String) (missing : List String) (state : RunState)
  | failedStacks (failed : List String)
deriving DecidableEq

/-- The eligibility loop over one generation (lines 804-822): the first
candidate whose transitive dependencies are not all in the succeeded set is
fatal — unless a target-stack filter is active, which bypasses the check. -/
def firstMissingDeps (g : DepGraph) (isTargetActive : Bool)
    (succeeded : List String) : List String → Option (String × List String)
  | [] => none
  | c :: rest =>
    let missing := (descendants g c).filter (fun d => !(succeeded.contains d))
    if !missing.isEmpty && !isTargetActive then some (c, missing)
    else firstMissingDeps g isTargetActive succeeded rest

/-- Dispatch of one generation's eligible stacks (lines 824-869): each stack —
restricted to the target stack when a filter is active — is handed to the
worker, and its terminal outcome (the `outcome` oracle: worker invocation plus
status polling) sorts it into the success set or the failure list.  The
source runs these concurrently; membership of the accumulators is
order-independent, so the model folds sequentially. -/
def dispatchGeneration (outcome : String → Bool) (target : Option String) :
    List String → RunState → RunState
  | [], st => st
  | c :: rest, st =>
    if (match target with | none => true | some t => c = t) then
      dispatchGeneration outcome target rest
        { dispatched := st.dispatched ++ [c]
          successful_stacks :=
            if outcome c then st.successful_stacks ++ [c] else st.successful_stacks
          failed_stacks :=
            if outcome c then st.failed_stacks else st.failed_stacks ++ [c] }
    else dispatchGeneration outcome target rest st

/-- The generation-by-generation loop of `deploy` (lines 799-871). -/
def deployGenerations (g : DepGraph) (outcome : String → Bool)
    (target : Option String) : List (List String) → RunState → Except DeployError RunState
  | [], st => .ok st
  | gen :: rest, st =>
    match firstMissingDeps g target.isSome st.successful_stacks gen with
    | some (c, missing) => .error (.missingDependencies c missing st)
    | none =>
      deployGenerations g outcome target rest (dispatchGeneration outcome target gen st)

/-- `deploy(...)` over prepared generations: run every generation in order,
then fail the run when any stack failed (lines 873-875).  `target` is the
already-normalized `--stack-name` filter. -/
def deployRun (g : DepGraph) (outcome : String → Bool) (target : Option String)
    (generations : List (List String)) : Except DeployError RunState :=
  match deployGenerations g outcome target generations
      { dispatched := [], successful_stacks := [], failed_stacks := [] } with
  | .error e => .error e
  | .ok st => if st.failed_stacks.isEmpty then .ok st else .error (.failedStacks st.failed_stacks)

/-! ## Basic facts about the dict model -/

theorem lookupKV_insertKV_self {α : Type} (m : List (String × α)) (k : String) (v : α) :
    lookupKV (insertKV m k v) k = some v := by
  induction m with
  | nil => simp [insertKV, lookupKV]
  | cons kv rest ih =>
    by_cases h : kv.1 = k
    · simp [insertKV, lookupKV, h]
    · simp [insertKV, lookupKV, h, ih]

theorem lookupKV_insertKV_ne {α : Type} (m : List (String × α)) (k k' : String) (v : α)
    (h : k' ≠ k) : lookupKV (insertKV m k v) k' = lookupKV m k' := by
  have h' : ¬ k = k' := Ne.symm h
  induction m with
  | nil => simp [insertKV, lookupKV, h']
  | cons kv rest ih =>
    by_cases hk : kv.1 = k
    · simp [insertKV, lookupKV, hk, h']
    · by_cases hk' : kv.1 = k'
      · simp [insertKV, lookupKV, hk, hk', h]
      · simp [insertKV, lookupKV, hk, hk', ih]

theorem memKV_insertKV {α : Type} (m : List (String × α)) (k k' : String) (v : α) :
    memKV (insertKV m k v) k' = (k' = k || memKV m k') := by
  by_cases h : k' = k
  · subst h; simp [memKV, lookupKV_insertKV_self]
  · simp [memKV, lookupKV_insertKV_ne m k k' v h, h]

theorem memKV_eq_true_iff_mem_keys {α : Type} (m : List (String × α)) (k : String) :
    memKV m k = true ↔ k ∈ keysKV m := by
  induction m with
  | nil => simp [memKV, lookupKV, keysKV]
  | cons kv rest ih =>
    by_cases h : kv.1 = k
    · simp [memKV, lookupKV, keysKV, h]
    · simpa [memKV, lookupKV, keysKV, h, Ne.symm h] using ih

theorem keysKV_insertKV_mem {α : Type} (m : List (String × α)) (k : String) (v : α)
    (h : memKV m k = true) : keysKV (insertKV m k v) = keysKV m := by
  induction m with
  | nil => simp [memKV, lookupKV] at h
  | cons kv rest ih =>
    by_cases hk : kv.1 = k
    · simp [insertKV, keysKV, hk]
    · have h' : memKV rest k = true := by
        simpa [memKV, lookupKV, hk] using h
      simpa [insertKV, keysKV, hk] using ih h'

/-! ## Claim C5 — Version Resolver -/

/-- C5: `resolve_version_with_hash_support` satisfies the spec's Version
Resolver contract exactly: a repoId containing `#` resolves by exact compound
key verbatim, falling back to the bare component key verbatim, else not-found;
a bare repoId resolves by exact key with the first seven characters returned,
else not-found. -/
theorem C5_version_resolution_matches_contract (repo : String)
    (repo_versions : List (String × String)) :
    resolve_version_with_hash_support repo repo_versions =
      versionResolverContract repo repo_versions := by
  unfold resolve_version_with_hash_support versionResolverContract
  cases repo.toList.contains '#' <;>
    cases h1 : lookupKV repo_versions repo <;>
      simp [h1] <;>
        cases h2 : lookupKV repo_versions (afterLastHash repo) <;> simp [h2]

/-! ## Claim C10 — environment-suffix-insensitive stack-name comparison -/

theorem not_dash_suffix (e' e b : List Char)
    (h1 : ¬ ('-' :: e') <:+ ('-' :: e)) (h2 : ¬ ('-' :: e) <:+ ('-' :: e')) :
    ¬ ('-' :: e') <:+ (b ++ '-' :: e) := by
  intro hsuf
  have hbase : ('-' :: e) <:+ (b ++ '-' :: e) := List.suffix_append b ('-' :: e)
  rcases Nat.le_total ('-' :: e').length ('-' :: e).length with hle | hle
  · exact h1 (List.suffix_of_suffix_length_le hsuf hbase hle)
  · exact h2 (List.suffix_of_suffix_length_le hbase hsuf hle)

theorem take_strip_append (b e : List Char) :
    (b ++ '-' :: e).take ((b ++ '-' :: e).length - (e.length + 1)) = b := by
  have hlen : (b ++ '-' :: e).length - (e.length + 1) = b.length := by
    simp [List.length_append]
  rw [hlen]
  exact List.take_left b ('-' :: e)

/-- Appending `-e` for a known environment `e` and stripping gives back the
base name: no two known environment names are suffixes of one another, so
exactly the appended suffix is stripped. -/
theorem stripSuffixChars_append (e b : List Char)
    (he : e ∈ ENVIRONMENT_PRIORITY.map String.toList) :
    stripSuffixChars (ENVIRONMENT_PRIORITY.map String.toList) (b ++ '-' :: e) = b := by
  have hself : ∀ b' : List Char, ('-' :: e) <:+ (b' ++ '-' :: e) :=
    fun b' => List.suffix_append b' ('-' :: e)
  simp only [ENVIRONMENT_PRIORITY, List.map_cons, List.map_nil] at he ⊢
  simp only [List.mem_cons, List.not_mem_nil, or_false] at he
  rcases he with he | he | he | he
  · subst he
    rw [stripSuffixChars, if_pos (hself b), take_strip_append]
  · subst he
    rw [stripSuffixChars, if_neg (not_dash_suffix _ _ _ (by decide) (by decide)),
      stripSuffixChars, if_pos (hself b), take_strip_append]
  · subst he
    rw [stripSuffixChars, if_neg (not_dash_suffix _ _ _ (by decide) (by decide)),
      stripSuffixChars, if_neg (not_dash_suffix _ _ _ (by decide) (by decide)),
      stripSuffixChars, if_pos (hself b), take_strip_append]
  · subst he
    rw [stripSuffixChars, if_neg (not_dash_suffix _ _ _ (by decide) (by decide)),
      stripSuffixChars, if_neg (not_dash_suffix _ _ _ (by decide) (by decide)),
      stripSuffixChars, if_neg (not_dash_suffix _ _ _ (by decide) (by decide)),
      stripSuffixChars, if_pos (hself b), take_strip_append]

theorem strip_environment_suffix_append (b e : String) (he : e ∈ ENVIRONMENT_PRIORITY) :
    strip_environment_suffix (b ++ "-" ++ e) = b := by
  unfold strip_environment_suffix
  have htl : (b ++ "-" ++ e).toList = b.toList ++ '-' :: e.toList := by
    have h1 : (b ++ "-" ++ e).toList = (b.toList ++ ['-']) ++ e.toList := rfl
    rw [h1, List.append_assoc]
    rfl
  rw [htl, stripSuffixChars_append e.toList b.toList (List.mem_map_of_mem _ he)]
  rfl

/-- C10: stack-name comparison is symmetric, and a base name carrying one
known environment suffix compares equal to the same base name carrying any
other known environment suffix (at most one suffix is stripped per side). -/
theorem C10_compare_stack_names_env_insensitive :
    (∀ s1 s2, compare_stack_names s1 s2 = compare_stack_names s2 s1) ∧
    (∀ b e1 e2, e1 ∈ ENVIRONMENT_PRIORITY → e2 ∈ ENVIRONMENT_PRIORITY →
      compare_stack_names (b ++ "-" ++ e1) (b ++ "-" ++ e2) = true) := by
  constructor
  · intro s1 s2
    by_cases h : strip_environment_suffix s1 = strip_environment_suffix s2
    · simp [compare_stack_names, h]
    · simp [compare_stack_names, h, Ne.symm h]
  · intro b e1 e2 h1 h2
    unfold compare_stack_names
    rw [strip_environment_suffix_append b e1 h1, strip_environment_suffix_append b e2 h2]
    simp

/-- Witness for C10 at concrete input: a development-suffixed name matches the
staging-suffixed name over the same base. -/
theorem C10_witness :
    compare_stack_names ("stack-two" ++ "-" ++ "development")
      ("stack-two" ++ "-" ++ "staging") = true :=
  C10_compare_stack_names_env_insensitive.2 "stack-two" "development" "staging"
    (by simp [ENVIRONMENT_PRIORITY]) (by simp [ENVIRONMENT_PRIORITY])

/-! ## Claim C1 — parameter key set of the materialized message -/

theorem keysKV_map_pyStr (m : List (String × GVal)) :
    keysKV (m.map (fun kv => (kv.1, kv.2.pyStr))) = keysKV m := by
  induction m with
  | nil => rfl
  | cons kv rest ih => simpa [keysKV] using ih

/-- If both the missing-parameters check and the superfluous-parameters check
pass, the final parameter keys are exactly the declared ones. -/
theorem exact_keys_of_checks (declared : List String) (final : List (String × GVal))
    (hmiss : declared.filter (fun p => !(memKV final p)) = [])
    (hsup : (keysKV final).filter (fun k => !(declared.contains k)) = []) :
    ∀ k, k ∈ keysKV final ↔ k ∈ declared := by
  intro k
  constructor
  · intro hk
    have h := List.filter_eq_nil_iff.mp hsup k hk
    have h2 : declared.contains k = true := by simpa using h
    exact List.elem_iff.mp h2
  · intro hd
    have h := List.filter_eq_nil_iff.mp hmiss k hd
    have h2 : memKV final k = true := by simpa using h
    exact (memKV_eq_true_iff_mem_keys final k).mp h2

/-- C1: when `create_message` returns a message, its parameter key set is
exactly the template's declared parameter set; and when, after backfill, a
declared parameter is still unsupplied (resp. a supplied parameter is not
declared), it fails with the error naming the environment-suffixed stack, the
template path, and the exact missing (resp. superfluous) parameter names. -/
theorem C1_parameters_exactly_declared
    (hashHex : String → String) (findTemplate : String → Option TemplateFile)
    (stack : StackDef) (globals : List (String × GVal)) (environment : Option String)
    (repo_versions : List (String × String)) (tf : TemplateFile) (declared : List String)
    (hfind : findTemplate (templateFileNameOf stack) = some tf)
    (hparse : tf.parse = .dict declared) :
    (∀ msg,
      create_message hashHex findTemplate stack globals environment repo_versions =
        .ok (some msg) →
      ∀ k, k ∈ keysKV msg.parameters ↔ k ∈ declared) ∧
    (∀ resolved,
      resolveParamsLoop (fullStackName stack environment) globals repo_versions []
          stack.parameters = .ok resolved →
      stack.stack_name.isEmpty = false → stack.disabled = false →
      let final := backfillParams globals declared resolved
      (declared.filter (fun p => !(memKV final p)) ≠ [] →
        create_message hashHex findTemplate stack globals environment repo_versions =
          .error (.missingParams (fullStackName stack environment) tf.path
            (declared.filter (fun p => !(memKV final p))))) ∧
      (declared.filter (fun p => !(memKV final p)) = [] →
        (keysKV final).filter (fun k => !(declared.contains k)) ≠ [] →
        create_message hashHex findTemplate stack globals environment repo_versions =
          .error (.superfluousParams (fullStackName stack environment) tf.path
            ((keysKV final).filter (fun k => !(declared.contains k)))))) := by
  constructor
  · intro msg heq
    simp only [create_message, hfind, hparse] at heq
    by_cases hname : stack.stack_name.isEmpty = true
    · rw [if_pos hname] at heq
      simp at heq
    · rw [if_neg hname] at heq
      by_cases hdis : stack.disabled = true
      · rw [if_pos hdis] at heq
        simp at heq
      · rw [if_neg hdis] at heq
        cases hres : resolveParamsLoop (fullStackName stack environment) globals
            repo_versions [] stack.parameters with
        | error e =>
          simp only [hres] at heq
          exact Except.noConfusion heq
        | ok resolved =>
          simp only [hres, finalizeParams] at heq
          by_cases hm :
              (declared.filter
                (fun p => !(memKV (backfillParams globals declared resolved) p))).isEmpty = true
          · rw [if_neg (by rw [hm]; simp)] at heq
            by_cases hs :
                ((keysKV (backfillParams globals declared resolved)).filter
                  (fun k => !(declared.contains k))).isEmpty = true
            · rw [if_neg (by rw [hs]; simp)] at heq
              cases hfindBad :
                  (backfillParams globals declared resolved).find? (fun kv => !(kv.2.isStr)) with
              | some kv =>
                simp only [hfindBad] at heq
                exact Except.noConfusion heq
              | none =>
                simp only [hfindBad, Except.ok.injEq, Option.some.injEq] at heq
                rw [← heq]
                intro k
                show k ∈ keysKV ((backfillParams globals declared resolved).map
                    (fun kv => (kv.1, kv.2.pyStr))) ↔ k ∈ declared
                rw [keysKV_map_pyStr]
                exact exact_keys_of_checks declared _
                  (List.isEmpty_iff.mp hm) (List.isEmpty_iff.mp hs) k
            · have hs' : ((keysKV (backfillParams globals declared resolved)).filter
                  (fun k => !(declared.contains k))).isEmpty = false := by simpa using hs
              rw [if_pos (by rw [hs']; rfl)] at heq
              exact Except.noConfusion heq
          · have hm' : (declared.filter
                (fun p => !(memKV (backfillParams globals declared resolved) p))).isEmpty
                  = false := by simpa using hm
            rw [if_pos (by rw [hm']; rfl)] at heq
            exact Except.noConfusion heq
  · intro resolved hres hname hdis
    intro final
    have hnames : ¬ stack.stack_name.isEmpty = true := by simp [hname]
    have hdiss : ¬ stack.disabled = true := by simp [hdis]
    constructor
    · intro hmiss
      have hmiss' : (declared.filter (fun p => !(memKV final p))).isEmpty = false := by
        simpa [List.isEmpty_iff] using hmiss
      simp only [create_message, hfind, hparse]
      rw [if_neg hnames, if_neg hdiss]
      simp only [hres, finalizeParams]
      rw [if_pos (by rw [hmiss']; rfl)]
    · intro hmiss hsup
      have hmiss' : (declared.filter (fun p => !(memKV final p))).isEmpty = true := by
        simp [List.isEmpty_iff, hmiss]
      have hsup' : ((keysKV final).filter (fun k => !(declared.contains k))).isEmpty = false := by
        simpa [List.isEmpty_iff] using hsup
      simp only [create_message, hfind, hparse]
      rw [if_neg hnames, if_neg hdiss]
      simp only [hres, finalizeParams]
      rw [if_neg (by rw [hmiss']; simp), if_pos (by rw [hsup']; rfl)]

/-- Witness for C1 at a concrete stack: the materialized message's parameter
keys (one explicit, one backfilled from globals) are exactly the template's
declared parameters. -/
theorem C1_witness :
    "Extra" ∈ keysKV [("Environment", GVal.str "development"), ("Extra", GVal.str "42")] ↔
      "Extra" ∈ ["Environment", "Extra"] := by
  have h :=
    (C1_parameters_exactly_declared (fun s => s)
      (fun n => if n = "t.yaml" then
        some { path := "development/t.yaml", body := "B",
               parse := .dict ["Environment", "Extra"] }
        else none)
      { stack_name := "test-stack", template_file := some "t.yaml",
        parameters := [("Environment", GVal.refDir "Environment")],
        dependencies := [], disabled := false }
      [("Environment", GVal.str "development"), ("Extra", GVal.str "42")]
      (some "development") []
      { path := "development/t.yaml", body := "B", parse := .dict ["Environment", "Extra"] }
      ["Environment", "Extra"] rfl rfl).1
      { stack_name := "test-stack-development", template := "B",
        parameters := [("Environment", "development"), ("Extra", "42")],
        template_content_hash := "B" }
      rfl "Extra"
  simpa using h

/-! ## Claim C6 — `$version` parameter directives -/

/-- C6 counterexample: with a version table holding only the legacy bare
component key, the Version Resolver resolves `base#comp` (legacy fallback),
but `create_message` raises `versionNotFound` for the very same identifier:
`$version` parameters are resolved by direct exact-key lookup, not via the
hash-aware resolver. -/
theorem C6_counterexample :
    create_message (fun s => s)
        (fun n => if n = "t.yaml" then
          some { path := "development/t.yaml", body := "B", parse := .dict ["V"] }
          else none)
        { stack_name := "s", template_file := some "t.yaml",
          parameters := [("V", GVal.versionDir "poemAI-ch/lambdas#comp")],
          dependencies := [], disabled := false }
        [] (some "development") [("comp", "1234567890abcdef")] =
      .error (.versionNotFound "poemAI-ch/lambdas#comp") ∧
    resolve_version_with_hash_support "poemAI-ch/lambdas#comp"
        [("comp", "1234567890abcdef")] = some "1234567890abcdef" := by
  constructor
  · rfl
  · decide

/-- C6 (amended): a `$version` parameter directive is resolved by direct
exact-key lookup in the version table — without the compound/legacy fallback
of the Version Resolver — truncated to the first seven characters, and a
missing key is a fatal error naming the repo. -/
theorem C6_amended_version_param_exact_lookup
    (stack_name : String) (globals : List (String × GVal))
    (repo_versions : List (String × String)) (repo : String) :
    (∀ full_sha, lookupKV repo_versions repo = some full_sha →
      resolveParamValue stack_name globals repo_versions (.versionDir repo) =
        .ok (full_sha.take 7)) ∧
    (lookupKV repo_versions repo = none →
      resolveParamValue stack_name globals repo_versions (.versionDir repo) =
        .error (.versionNotFound repo)) := by
  constructor
  · intro full_sha h
    simp [resolveParamValue, h]
  · intro h
    simp [resolveParamValue, h]

/-- Witness for the amended C6 at a concrete table: the stored identifier is
found by exact key and truncated to seven characters. -/
theorem C6_witness :
    resolveParamValue "s" [] [("repo", "abcdef1234567890")] (.versionDir "repo") =
      .ok "abcdef1" := by
  have h := (C6_amended_version_param_exact_lookup "s" [] [("repo", "abcdef1234567890")]
    "repo").1 "abcdef1234567890" rfl
  simpa using h

/-! ## Claim C9 — materialization depends on the timestamp global only through
parameters that reference it -/

theorem find?_congr {α : Type} (l : List α) (p q : α → Bool)
    (h : ∀ x ∈ l, p x = q x) : l.find? p = l.find? q := by
  induction l with
  | nil => rfl
  | cons x rest ih =>
    rcases hx : p x with _ | _ <;>
      rw [List.find?_cons, List.find?_cons, hx, ← h x (by simp), hx] <;>
        exact ih (fun y hy => h y (by simp [hy]))

theorem safeSubstitute_insert_indep (parts : List TplPart) (g : List (String × GVal))
    (key : String) (w1 w2 : GVal) (h : key ∉ identsOf parts) :
    safeSubstitute parts (insertKV g key w1) = safeSubstitute parts (insertKV g key w2) := by
  induction parts with
  | nil => rfl
  | cons p rest ih =>
    have hrest : key ∉ identsOf rest := fun hk => h (by
      cases p <;> simp [identsOf] at hk ⊢ <;> simp [hk])
    cases p with
    | text t => simp [safeSubstitute] at ih ⊢; rw [ih hrest]
    | ident i =>
      have hik : i ≠ key := fun he => h (by simp [identsOf, he])
      have hlk : lookupKV (insertKV g key w1) i = lookupKV (insertKV g key w2) i := by
        rw [lookupKV_insertKV_ne g key i w1 hik, lookupKV_insertKV_ne g key i w2 hik]
      simp [safeSubstitute] at ih ⊢
      rw [hlk, ih hrest]

theorem resolveParamValue_insert_indep (stack_name : String) (g : List (String × GVal))
    (repo_versions : List (String × String)) (key : String) (w1 w2 : GVal) (v : GVal)
    (h : v.mentionsKey key = false) :
    resolveParamValue stack_name (insertKV g key w1) repo_versions v =
      resolveParamValue stack_name (insertKV g key w2) repo_versions v := by
  cases v with
  | str s => rfl
  | otherDict r => rfl
  | versionDir repo => rfl
  | refDir r =>
    have hrk : r ≠ key := by simpa [GVal.mentionsKey] using h
    simp only [resolveParamValue]
    rw [lookupKV_insertKV_ne g key r w1 hrk, lookupKV_insertKV_ne g key r w2 hrk]
  | subDir parts =>
    have hk : key ∉ identsOf parts := by
      simpa [GVal.mentionsKey, List.elem_iff] using h
    have hmem : ∀ i ∈ identsOf parts,
        memKV (insertKV g key w1) i = memKV (insertKV g key w2) i := by
      intro i hi
      have hik : i ≠ key := fun he => hk (he ▸ hi)
      simp [memKV, lookupKV_insertKV_ne g key i w1 hik, lookupKV_insertKV_ne g key i w2 hik]
    simp only [resolveParamValue]
    rw [find?_congr (identsOf parts) _ _ (fun i hi => by rw [hmem i hi]),
      safeSubstitute_insert_indep parts g key w1 w2 hk]

theorem resolveParamsLoop_insert_indep (stack_name : String) (g : List (String × GVal))
    (repo_versions : List (String × String)) (key : String) (w1 w2 : GVal)
    (params : List (String × GVal))
    (h : ∀ kv ∈ params, GVal.mentionsKey kv.2 key = false) :
    ∀ acc, resolveParamsLoop stack_name (insertKV g key w1) repo_versions acc params =
      resolveParamsLoop stack_name (insertKV g key w2) repo_versions acc params := by
  induction params with
  | nil => intro acc; rfl
  | cons kv rest ih =>
    intro acc
    have hv := h kv (by simp)
    have hrest : ∀ kv' ∈ rest, GVal.mentionsKey kv'.2 key = false :=
      fun kv' hkv' => h kv' (by simp [hkv'])
    simp only [resolveParamsLoop]
    rw [resolveParamValue_insert_indep stack_name g repo_versions key w1 w2 kv.2 hv]
    cases resolveParamValue stack_name (insertKV g key w2) repo_versions kv.2 with
    | error e => rfl
    | ok s => exact ih hrest _

theorem backfillLoop_insert_indep (g : List (String × GVal))
    (params : List (String × GVal)) (key : String) (w1 w2 : GVal)
    (declared : List String) (hk : key ∉ declared) :
    ∀ acc, backfillLoop (insertKV g key w1) params declared acc =
      backfillLoop (insertKV g key w2) params declared acc := by
  induction declared with
  | nil => intro acc; rfl
  | cons p rest ih =>
    intro acc
    have hpk : p ≠ key := fun he => hk (by simp [he])
    have hrest : key ∉ rest := fun hr => hk (by simp [hr])
    simp only [backfillLoop]
    rw [lookupKV_insertKV_ne g key p w1 hpk, lookupKV_insertKV_ne g key p w2 hpk]
    by_cases hm : memKV params p = true
    · rw [if_pos hm, if_pos hm]
      exact ih hrest acc
    · rw [if_neg hm, if_neg hm]
      cases lookupKV g p with
      | some v => exact ih hrest _
      | none => exact ih hrest acc

theorem backfillParams_insert_indep (g : List (String × GVal)) (key : String)
    (w1 w2 : GVal) (declared : List String) (hk : key ∉ declared) :
    ∀ params, backfillParams (insertKV g key w1) declared params =
      backfillParams (insertKV g key w2) declared params :=
  fun params => backfillLoop_insert_indep g params key w1 w2 declared hk params

/-- C9: materializing a stack against globals that differ only in the injected
timestamp global yields identical results (message content and template hash
alike) provided no parameter references the timestamp global — directly, via
a `$sub` identifier, or through backfill of a declared template parameter.
Materializing twice with fully unchanged inputs is the special case
`t1 = t2`. -/
theorem C9_materialization_timestamp_independent
    (hashHex : String → String) (findTemplate : String → Option TemplateFile)
    (stack : StackDef) (globals : List (String × GVal)) (environment : Option String)
    (repo_versions : List (String × String)) (t1 t2 : String)
    (hparams : ∀ kv ∈ stack.parameters, GVal.mentionsKey kv.2 POEMAI_TIMESTAMP_KEY = false)
    (hdecl : ∀ tf declared, findTemplate (templateFileNameOf stack) = some tf →
      tf.parse = .dict declared → POEMAI_TIMESTAMP_KEY ∉ declared) :
    create_message hashHex findTemplate stack
        (insertKV globals POEMAI_TIMESTAMP_KEY (.str t1)) environment repo_versions =
      create_message hashHex findTemplate stack
        (insertKV globals POEMAI_TIMESTAMP_KEY (.str t2)) environment repo_versions := by
  cases hfind : findTemplate (templateFileNameOf stack) with
  | none => simp only [create_message, hfind]
  | some tf =>
    cases hparse : tf.parse with
    | invalid => simp only [create_message, hfind, hparse]
    | empty => simp only [create_message, hfind, hparse]
    | nonDict => simp only [create_message, hfind, hparse]
    | dict declared =>
      have hd := hdecl tf declared hfind hparse
      simp only [create_message, hfind, hparse]
      by_cases hname : stack.stack_name.isEmpty = true
      · rw [if_pos hname, if_pos hname]
      · rw [if_neg hname, if_neg hname]
        by_cases hdis : stack.disabled = true
        · rw [if_pos hdis, if_pos hdis]
        · rw [if_neg hdis, if_neg hdis]
          rw [resolveParamsLoop_insert_indep (fullStackName stack environment) globals
            repo_versions POEMAI_TIMESTAMP_KEY (.str t1) (.str t2) stack.parameters hparams []]
          cases hres : resolveParamsLoop (fullStackName stack environment)
              (insertKV globals POEMAI_TIMESTAMP_KEY (.str t2)) repo_versions []
              stack.parameters with
          | error e => rfl
          | ok resolved =>
            show finalizeParams hashHex tf declared (fullStackName stack environment)
                (insertKV globals POEMAI_TIMESTAMP_KEY (.str t1)) resolved =
              finalizeParams hashHex tf declared (fullStackName stack environment)
                (insertKV globals POEMAI_TIMESTAMP_KEY (.str t2)) resolved
            simp only [finalizeParams]
            rw [backfillParams_insert_indep globals POEMAI_TIMESTAMP_KEY
              (.str t1) (.str t2) declared hd resolved]

/-- Witness for C9 at a concrete stack: two materializations differing only in
the timestamp value produce the same message. -/
theorem C9_witness :
    create_message (fun s => s)
        (fun n => if n = "t.yaml" then
          some { path := "development/t.yaml", body := "B", parse := .dict ["P"] }
          else none)
        { stack_name := "s", template_file := some "t.yaml",
          parameters := [("P", GVal.str "1")], dependencies := [], disabled := false }
        (insertKV [] POEMAI_TIMESTAMP_KEY (.str "1111")) (some "development") [] =
      create_message (fun s => s)
        (fun n => if n = "t.yaml" then
          some { path := "development/t.yaml", body := "B", parse := .dict ["P"] }
          else none)
        { stack_name := "s", template_file := some "t.yaml",
          parameters := [("P", GVal.str "1")], dependencies := [], disabled := false }
        (insertKV [] POEMAI_TIMESTAMP_KEY (.str "2222")) (some "development") [] := by
  exact C9_materialization_timestamp_independent (fun s => s) _ _ [] (some "development") []
    "1111" "2222" (by decide)
    (by intro tf declared hfind hparse
        have h2 : some (⟨"development/t.yaml", "B", TemplateParse.dict ["P"]⟩ : TemplateFile) =
            some tf := hfind
        have h3 : tf = (⟨"development/t.yaml", "B", TemplateParse.dict ["P"]⟩ : TemplateFile) :=
          (Option.some.inj h2).symm
        rw [h3] at hparse
        have h4 : (["P"] : List String) = declared := by simpa using hparse
        rw [← h4]
        decide)

/-! ## Claim C7 — the missing-environment error comes after directive
resolution -/

/-- C7 counterexample: a configuration with no environment but a dangling
`$ref` fails with the `$ref`-resolution error, not the missing-environment
error — directive resolution runs before the environment check (line 555), so
the claimed "fatal before any resolution begins" does not hold. -/
theorem C7_counterexample :
    prepareGlobals
        { environment := none, globals := [("b", GVal.refDir "missing")], stackDefs := [] }
        [] "0" =
      .error (.refMissing "missing" "b") ∧
    (({ environment := none, globals := [("b", GVal.refDir "missing")], stackDefs := [] } :
      Config).environment = none) := by
  constructor
  · rfl
  · rfl

/-- C7 (amended): a missing environment is still always fatal — `prepareGlobals`
never succeeds without one — but the error is raised only after the three
directive-resolution passes: when all passes succeed the result is exactly the
missing-environment error, and a pass may fail (or rewrite globals) first. -/
theorem C7_amended_missing_environment_fatal_after_passes
    (config : Config) (repo_versions : List (String × String)) (timestamp : String)
    (henv : config.environment = none) :
    (∀ g, prepareGlobals config repo_versions timestamp ≠ .ok g) ∧
    (∀ g1 g2 g3,
      versionPassLoop repo_versions
          (keysKV (insertKV config.globals POEMAI_TIMESTAMP_KEY (.str timestamp)))
          (insertKV config.globals POEMAI_TIMESTAMP_KEY (.str timestamp)) = .ok g1 →
      subPassLoop (keysKV g1) g1 = .ok g2 →
      refPassLoop (keysKV g2) g2 = .ok g3 →
      prepareGlobals config repo_versions timestamp = .error .environmentNotFound) := by
  constructor
  · intro g hok
    simp only [prepareGlobals, henv] at hok
    cases h1 : versionPassLoop repo_versions
        (keysKV (insertKV config.globals POEMAI_TIMESTAMP_KEY (.str timestamp)))
        (insertKV config.globals POEMAI_TIMESTAMP_KEY (.str timestamp)) with
    | error e =>
      simp only [h1] at hok
      exact Except.noConfusion hok
    | ok g1 =>
      simp only [h1] at hok
      cases h2 : subPassLoop (keysKV g1) g1 with
      | error e =>
        simp only [h2] at hok
        exact Except.noConfusion hok
      | ok g2 =>
        simp only [h2] at hok
        cases h3 : refPassLoop (keysKV g2) g2 with
        | error e =>
          simp only [h3] at hok
          exact Except.noConfusion hok
        | ok g3 =>
          simp only [h3] at hok
          exact Except.noConfusion hok
  · intro g1 g2 g3 h1 h2 h3
    simp only [prepareGlobals, henv, h1, h2, h3]

/-- Witness for the amended C7: with no environment an empty configuration is
rejected rather than resolved to its (timestamp-only) globals. -/
theorem C7_witness :
    prepareGlobals { environment := none, globals := [], stackDefs := [] } [] "0" ≠
      .ok [(POEMAI_TIMESTAMP_KEY, GVal.str "0")] :=
  (C7_amended_missing_environment_fatal_after_passes
    { environment := none, globals := [], stackDefs := [] } [] "0" rfl).1
    [(POEMAI_TIMESTAMP_KEY, GVal.str "0")]

/-! ## Claim C8 — reference cycles complete silently instead of failing -/

/-- C8 counterexample: two `$ref` directives referring to each other make the
three passes complete **without error**, leaving unresolved (non-string)
directive values in the globals map — the claimed must-fail behavior does not
hold (though resolution does terminate). -/
theorem C8_counterexample :
    prepareGlobals
        { environment := some "development",
          globals := [("a", GVal.refDir "b"), ("b", GVal.refDir "a")], stackDefs := [] }
        [] "0" =
      .ok [("a", GVal.refDir "a"), ("b", GVal.refDir "a"),
           (POEMAI_TIMESTAMP_KEY, GVal.str "0"), ("Environment", GVal.str "development")] ∧
    GVal.isStr (GVal.refDir "a") = false := by
  constructor
  · rfl
  · rfl

theorem versionPassLoop_no_version_id (repo_versions : List (String × String))
    (m : List (String × GVal))
    (h : ∀ k v, lookupKV m k = some v → ∀ repo, v ≠ GVal.versionDir repo) :
    ∀ keys, versionPassLoop repo_versions keys m = .ok m := by
  intro keys
  induction keys with
  | nil => rfl
  | cons key rest ih =>
    simp only [versionPassLoop]
    cases hv : lookupKV m key with
    | none => exact ih
    | some v =>
      cases v with
      | versionDir repo => exact absurd rfl (h key _ hv repo)
      | str s => exact ih
      | refDir r => exact ih
      | subDir parts => exact ih
      | otherDict r => exact ih

theorem subPassLoop_no_sub_id (m : List (String × GVal))
    (h : ∀ k v, lookupKV m k = some v → ∀ parts, v ≠ GVal.subDir parts) :
    ∀ keys, subPassLoop keys m = .ok m := by
  intro keys
  induction keys with
  | nil => rfl
  | cons key rest ih =>
    simp only [subPassLoop]
    cases hv : lookupKV m key with
    | none => exact ih
    | some v =>
      cases v with
      | subDir parts => exact absurd rfl (h key _ hv parts)
      | str s => exact ih
      | refDir r => exact ih
      | versionDir repo => exact ih
      | otherDict r => exact ih

/-- The str-or-resolvable-ref invariant used for the amended C8. -/
def strOrRefInto (m v' : List (String × GVal)) : Prop :=
  ∀ k v, lookupKV v' k = some v →
    GVal.isStr v = true ∨ ∃ t, v = GVal.refDir t ∧ memKV m t = true

theorem refPassLoop_total_of_str_or_ref (keys : List String) :
    ∀ m : List (String × GVal), strOrRefInto m m →
      ∃ g, refPassLoop keys m = .ok g := by
  induction keys with
  | nil => exact fun m _ => ⟨m, rfl⟩
  | cons key rest ih =>
    intro m hm
    cases hv : lookupKV m key with
    | none =>
      simp only [refPassLoop, hv]
      exact ih m hm
    | some v =>
      cases v with
      | str s =>
        simp only [refPassLoop, hv]
        exact ih m hm
      | subDir parts =>
        simp only [refPassLoop, hv]
        exact ih m hm
      | versionDir repo =>
        simp only [refPassLoop, hv]
        exact ih m hm
      | otherDict r =>
        simp only [refPassLoop, hv]
        exact ih m hm
      | refDir t =>
        rcases hm key _ hv with hstr | ⟨t', ht', hmem⟩
        · exact absurd hstr (by simp [GVal.isStr])
        · cases ht'
          rcases Option.isSome_iff_exists.mp (by simpa [memKV] using hmem) with ⟨v', hv'⟩
          simp only [refPassLoop, hv, hv']
          refine ih (insertKV m key v') ?_
          intro k w hw
          by_cases hk : k = key
          · subst hk
            rw [lookupKV_insertKV_self] at hw
            cases hw
            rcases hm t _ hv' with hstr' | ⟨t2, ht2, hmem2⟩
            · exact Or.inl hstr'
            · refine Or.inr ⟨t2, ht2, ?_⟩
              rw [memKV_insertKV]
              simp [hmem2]
          · rw [lookupKV_insertKV_ne m key k v' hk] at hw
            rcases hm k _ hw with hstr' | ⟨t2, ht2, hmem2⟩
            · exact Or.inl hstr'
            · refine Or.inr ⟨t2, ht2, ?_⟩
              rw [memKV_insertKV]
              simp [hmem2]

/-- C8 (amended): reference cycles among `$ref` directives do **not** make
global resolution fail (nor loop — each pass visits each key once): whenever
every global value is a plain string or a `$ref` to an existing key — cycles
included — `prepareGlobals` succeeds, possibly leaving unresolved non-string
directive values in the result (see the counterexample). -/
theorem C8_amended_ref_cycles_no_failure
    (config : Config) (repo_versions : List (String × String)) (timestamp : String)
    (env : String) (henv : config.environment = some env)
    (hvals : strOrRefInto
      (insertKV (insertKV config.globals POEMAI_TIMESTAMP_KEY (.str timestamp))
        "Environment" (.str env))
      (insertKV (insertKV config.globals POEMAI_TIMESTAMP_KEY (.str timestamp))
        "Environment" (.str env))) :
    ∃ g, prepareGlobals config repo_versions timestamp = .ok g := by
  have hnover : ∀ k v,
      lookupKV (insertKV (insertKV config.globals POEMAI_TIMESTAMP_KEY (.str timestamp))
        "Environment" (.str env)) k = some v → ∀ repo, v ≠ GVal.versionDir repo := by
    intro k v hv repo hne
    rcases hvals k v hv with hstr | ⟨t, ht, _⟩
    · rw [hne] at hstr
      exact absurd hstr (by simp [GVal.isStr])
    · rw [hne] at ht
      exact GVal.noConfusion ht
  have hnosub : ∀ k v,
      lookupKV (insertKV (insertKV config.globals POEMAI_TIMESTAMP_KEY (.str timestamp))
        "Environment" (.str env)) k = some v → ∀ parts, v ≠ GVal.subDir parts := by
    intro k v hv parts hne
    rcases hvals k v hv with hstr | ⟨t, ht, _⟩
    · rw [hne] at hstr
      exact absurd hstr (by simp [GVal.isStr])
    · rw [hne] at ht
      exact GVal.noConfusion ht
  rcases refPassLoop_total_of_str_or_ref
      (keysKV (insertKV (insertKV config.globals POEMAI_TIMESTAMP_KEY (.str timestamp))
        "Environment" (.str env)))
      _ hvals with ⟨g, hg⟩
  refine ⟨g, ?_⟩
  simp only [prepareGlobals, henv,
    versionPassLoop_no_version_id repo_versions _ hnover,
    subPassLoop_no_sub_id _ hnosub, hg]

/-- Witness for the amended C8: the mutual-`$ref` cycle configuration
completes global resolution without an error. -/
theorem C8_witness :
    ∃ g, prepareGlobals
        { environment := some "development",
          globals := [("a", GVal.refDir "b"), ("b", GVal.refDir "a")], stackDefs := [] }
        [] "0" = .ok g := by
  refine C8_amended_ref_cycles_no_failure _ [] "0" "development" rfl ?_
  intro k v h
  simp only [insertKV, lookupKV] at h
  split_ifs at h with h1 h2 h3 h4
  · cases h
    exact Or.inr ⟨"b", rfl, by decide⟩
  · cases h
    exact Or.inr ⟨"a", rfl, by decide⟩
  · cases h
    exact Or.inl rfl
  · cases h
    exact Or.inl rfl

/-! ## Scheduler lemmas (claims C2, C3) -/

/-- A node with an incoming edge from a remaining node is not peelable. -/
theorem noIncoming_false_of_edge (edges : List (String × String)) (rem : List String)
    (u v : String) (he : (u, v) ∈ edges) (hu : u ∈ rem) :
    noIncoming edges rem v = false := by
  by_contra h
  have h' : noIncoming edges rem v = true := by simpa using h
  have h2 := List.all_eq_true.mp h' (u, v) he
  simp [List.elem_iff, hu] at h2

theorem genIndexOf_lt_length (gens : List (List String)) (n : String) :
    ∀ i, genIndexOf gens n = some i → i < gens.length := by
  induction gens with
  | nil => intro i h; exact Option.noConfusion h
  | cons g rest ih =>
    intro i h
    simp only [genIndexOf] at h
    by_cases hg : n ∈ g
    · rw [if_pos hg] at h
      cases h
      simp
    · rw [if_neg hg] at h
      cases hrec : genIndexOf rest n with
      | none => rw [hrec] at h; exact Option.noConfusion h
      | some j =>
        rw [hrec] at h
        cases h
        simpa using Nat.succ_lt_succ (ih j hrec)

/-- Every node of the remaining set gets a generation index on success. -/
theorem topoAux_covers (edges : List (String × String)) :
    ∀ (fuel : Nat) (rem : List String) (gens : List (List String)),
      topoGenerationsAux edges fuel rem = some gens →
      ∀ n ∈ rem, ∃ i, genIndexOf gens n = some i := by
  intro fuel
  induction fuel with
  | zero =>
    intro rem gens h n hn
    simp only [topoGenerationsAux] at h
    by_cases hrem : rem.isEmpty = true
    · rw [List.isEmpty_iff] at hrem
      subst hrem
      cases hn
    · rw [if_neg hrem] at h
      exact Option.noConfusion h
  | succ fuel ih =>
    intro rem gens h n hn
    simp only [topoGenerationsAux] at h
    by_cases hrem : rem.isEmpty = true
    · rw [List.isEmpty_iff] at hrem
      subst hrem
      cases hn
    · rw [if_neg hrem] at h
      by_cases hlay : (rem.filter (noIncoming edges rem)).isEmpty = true
      · rw [if_pos hlay] at h
        exact Option.noConfusion h
      · rw [if_neg hlay] at h
        cases hrec : topoGenerationsAux edges fuel
            (rem.filter (fun n => !(noIncoming edges rem n))) with
        | none =>
          simp only [hrec] at h
          exact Option.noConfusion h
        | some gens' =>
          simp only [hrec] at h
          have hg : gens = rem.filter (noIncoming edges rem) :: gens' :=
            (Option.some.inj h).symm
          subst hg
          by_cases hnl : n ∈ rem.filter (noIncoming edges rem)
          · exact ⟨0, by simp [genIndexOf, hnl]⟩
          · have hp : noIncoming edges rem n = false := by
              by_contra hp'
              exact hnl (List.mem_filter.mpr ⟨hn, by simpa using hp'⟩)
            have hn' : n ∈ rem.filter (fun n => !(noIncoming edges rem n)) :=
              List.mem_filter.mpr ⟨hn, by simp [hp]⟩
            rcases ih _ _ hrec n hn' with ⟨i, hi⟩
            exact ⟨i + 1, by simp [genIndexOf, hnl, hi]⟩

/-- On success, a dependent is always emitted strictly before its dependency
(in the unreversed peeling order). -/
theorem topoAux_edge_order (edges : List (String × String)) :
    ∀ (fuel : Nat) (rem : List String) (gens : List (List String)),
      topoGenerationsAux edges fuel rem = some gens →
      ∀ u v, (u, v) ∈ edges → u ∈ rem → v ∈ rem →
        ∃ i j, genIndexOf gens u = some i ∧ genIndexOf gens v = some j ∧ i < j := by
  intro fuel
  induction fuel with
  | zero =>
    intro rem gens h u v he hu hv
    simp only [topoGenerationsAux] at h
    by_cases hrem : rem.isEmpty = true
    · rw [List.isEmpty_iff] at hrem
      subst hrem
      cases hu
    · rw [if_neg hrem] at h
      exact Option.noConfusion h
  | succ fuel ih =>
    intro rem gens h u v he hu hv
    simp only [topoGenerationsAux] at h
    by_cases hrem : rem.isEmpty = true
    · rw [List.isEmpty_iff] at hrem
      subst hrem
      cases hu
    · rw [if_neg hrem] at h
      by_cases hlay : (rem.filter (noIncoming edges rem)).isEmpty = true
      · rw [if_pos hlay] at h
        exact Option.noConfusion h
      · rw [if_neg hlay] at h
        cases hrec : topoGenerationsAux edges fuel
            (rem.filter (fun n => !(noIncoming edges rem n))) with
        | none =>
          simp only [hrec] at h
          exact Option.noConfusion h
        | some gens' =>
          simp only [hrec] at h
          have hg : gens = rem.filter (noIncoming edges rem) :: gens' :=
            (Option.some.inj h).symm
          subst hg
          have hpv : noIncoming edges rem v = false := noIncoming_false_of_edge edges rem u v he hu
          have hvl : v ∉ rem.filter (noIncoming edges rem) := by
            intro hvl'
            have := (List.mem_filter.mp hvl').2
            rw [hpv] at this
            exact Bool.noConfusion this
          have hv' : v ∈ rem.filter (fun n => !(noIncoming edges rem n)) :=
            List.mem_filter.mpr ⟨hv, by simp [hpv]⟩
          by_cases hul : u ∈ rem.filter (noIncoming edges rem)
          · rcases topoAux_covers edges fuel _ gens' hrec v hv' with ⟨j, hj⟩
            exact ⟨0, j + 1, by simp [genIndexOf, hul], by simp [genIndexOf, hvl, hj],
              Nat.succ_pos j⟩
          · have hpu : noIncoming edges rem u = false := by
              by_contra hp'
              exact hul (List.mem_filter.mpr ⟨hu, by simpa using hp'⟩)
            have hu' : u ∈ rem.filter (fun n => !(noIncoming edges rem n)) :=
              List.mem_filter.mpr ⟨hu, by simp [hpu]⟩
            rcases ih _ _ hrec u v he hu' hv' with ⟨i, j, hi, hj, hij⟩
            exact ⟨i + 1, j + 1, by simp [genIndexOf, hul, hi], by simp [genIndexOf, hvl, hj],
              Nat.succ_lt_succ hij⟩

/-- Every emitted node was in the remaining set. -/
theorem topoAux_members (edges : List (String × String)) :
    ∀ (fuel : Nat) (rem : List String) (gens : List (List String)),
      topoGenerationsAux edges fuel rem = some gens →
      ∀ g ∈ gens, ∀ x ∈ g, x ∈ rem := by
  intro fuel
  induction fuel with
  | zero =>
    intro rem gens h g hgm x hx
    simp only [topoGenerationsAux] at h
    by_cases hrem : rem.isEmpty = true
    · rw [if_pos hrem] at h
      cases (Option.some.inj h).symm
      cases hgm
    · rw [if_neg hrem] at h
      exact Option.noConfusion h
  | succ fuel ih =>
    intro rem gens h g hgm x hx
    simp only [topoGenerationsAux] at h
    by_cases hrem : rem.isEmpty = true
    · rw [if_pos hrem] at h
      cases (Option.some.inj h).symm
      cases hgm
    · rw [if_neg hrem] at h
      by_cases hlay : (rem.filter (noIncoming edges rem)).isEmpty = true
      · rw [if_pos hlay] at h
        exact Option.noConfusion h
      · rw [if_neg hlay] at h
        cases hrec : topoGenerationsAux edges fuel
            (rem.filter (fun n => !(noIncoming edges rem n))) with
        | none =>
          simp only [hrec] at h
          exact Option.noConfusion h
        | some gens' =>
          simp only [hrec] at h
          have hg : gens = rem.filter (noIncoming edges rem) :: gens' :=
            (Option.some.inj h).symm
          subst hg
          rcases List.mem_cons.mp hgm with hgl | hgr
          · subst hgl
            exact (List.mem_filter.mp hx).1
          · exact (List.mem_filter.mp (ih _ _ hrec g hgr x hx)).1

/-- The emitted generations are pairwise disjoint. -/
theorem topoAux_disjoint (edges : List (String × String)) :
    ∀ (fuel : Nat) (rem : List String) (gens : List (List String)),
      topoGenerationsAux edges fuel rem = some gens →
      List.Pairwise (fun g1 g2 => ∀ x ∈ g1, x ∉ g2) gens := by
  intro fuel
  induction fuel with
  | zero =>
    intro rem gens h
    simp only [topoGenerationsAux] at h
    by_cases hrem : rem.isEmpty = true
    · rw [if_pos hrem] at h
      cases (Option.some.inj h).symm
      exact List.Pairwise.nil
    · rw [if_neg hrem] at h
      exact Option.noConfusion h
  | succ fuel ih =>
    intro rem gens h
    simp only [topoGenerationsAux] at h
    by_cases hrem : rem.isEmpty = true
    · rw [if_pos hrem] at h
      cases (Option.some.inj h).symm
      exact List.Pairwise.nil
    · rw [if_neg hrem] at h
      by_cases hlay : (rem.filter (noIncoming edges rem)).isEmpty = true
      · rw [if_pos hlay] at h
        exact Option.noConfusion h
      · rw [if_neg hlay] at h
        cases hrec : topoGenerationsAux edges fuel
            (rem.filter (fun n => !(noIncoming edges rem n))) with
        | none =>
          simp only [hrec] at h
          exact Option.noConfusion h
        | some gens' =>
          simp only [hrec] at h
          have hg : gens = rem.filter (noIncoming edges rem) :: gens' :=
            (Option.some.inj h).symm
          subst hg
          refine List.Pairwise.cons ?_ (ih _ _ hrec)
          intro g' hg' x hxl hxg'
          have hxrem' := topoAux_members edges fuel _ _ hrec g' hg' x hxg'
          have hpx := (List.mem_filter.mp hxl).2
          have hpx' := (List.mem_filter.mp hxrem').2
          rw [hpx] at hpx'
          exact Bool.noConfusion hpx'

theorem genIndexOf_of_get (gens : List (List String)) (n : String)
    (hdisj : List.Pairwise (fun g1 g2 => ∀ x ∈ g1, x ∉ g2) gens) :
    ∀ (i : Nat) (hi : i < gens.length), n ∈ gens.get ⟨i, hi⟩ →
      genIndexOf gens n = some i := by
  induction gens with
  | nil => intro i hi; simp at hi
  | cons g rest ih =>
    intro i hi hn
    cases i with
    | zero =>
      simp only [List.get] at hn
      simp [genIndexOf, hn]
    | succ k =>
      simp only [List.get] at hn
      have hk : k < rest.length := Nat.lt_of_succ_lt_succ hi
      have hng : n ∉ g := by
        intro hng'
        exact (List.rel_of_pairwise_cons hdisj (List.get_mem rest k hk)) n hng' hn
      have hrec := ih (List.Pairwise.sublist (List.sublist_cons_self g rest) hdisj) k hk hn
      simp [genIndexOf, hng, hrec]

theorem genIndexOf_mem (gens : List (List String)) (n : String) :
    ∀ i, genIndexOf gens n = some i → ∃ hi : i < gens.length, n ∈ gens.get ⟨i, hi⟩ := by
  induction gens with
  | nil => intro i h; exact Option.noConfusion h
  | cons g rest ih =>
    intro i h
    simp only [genIndexOf] at h
    by_cases hg : n ∈ g
    · rw [if_pos hg] at h
      cases h
      exact ⟨by simp, hg⟩
    · rw [if_neg hg] at h
      cases hrec : genIndexOf rest n with
      | none => rw [hrec] at h; exact Option.noConfusion h
      | some k =>
        rw [hrec] at h
        cases h
        rcases ih k hrec with ⟨hk, hmem⟩
        exact ⟨Nat.succ_lt_succ hk, hmem⟩

/-- Generation index through list reversal, for pairwise disjoint generations. -/
theorem genIndexOf_reverse (gens : List (List String)) (n : String) (i : Nat)
    (hdisj : List.Pairwise (fun g1 g2 => ∀ x ∈ g1, x ∉ g2) gens)
    (h : genIndexOf gens n = some i) :
    genIndexOf gens.reverse n = some (gens.length - 1 - i) := by
  rcases genIndexOf_mem gens n i h with ⟨hi, hmem⟩
  have hdisj' : List.Pairwise (fun g1 g2 => ∀ x ∈ g1, x ∉ g2) gens.reverse := by
    rw [List.pairwise_reverse]
    exact hdisj.imp (fun {a b} hab x hx1 hx2 => hab x hx2 hx1)
  have hrev : n ∈ gens.reverse.get ⟨gens.length - 1 - i, by simp; omega⟩ := by
    rw [List.get_reverse gens i (by simp; omega) hi]
    exact hmem
  exact genIndexOf_of_get gens.reverse n hdisj' _ _ hrev

theorem mem_addNode_self (ns : List String) (n : String) : n ∈ addNode ns n := by
  unfold addNode
  by_cases h : n ∈ ns
  · rwa [if_pos h]
  · rw [if_neg h]
    simp

theorem mem_addNode_of_mem (ns : List String) (m x : String) (h : x ∈ ns) :
    x ∈ addNode ns m := by
  unfold addNode
  by_cases hm : m ∈ ns
  · rwa [if_pos hm]
  · rw [if_neg hm]
    simp [h]

theorem depLoop_inv (stack_names disabled_stack_names : List String)
    (env : Option String) (stack_name : String) :
    ∀ (deps : List String) (g g' : DepGraph),
      depLoop stack_names disabled_stack_names env stack_name deps g = .ok g' →
      stack_name ∈ g.nodes →
      (∀ e ∈ g.edges, e.1 ∈ g.nodes ∧ e.2 ∈ g.nodes) →
      (∀ n ∈ g.nodes, n ∈ g'.nodes) ∧
        (∀ e ∈ g'.edges, e.1 ∈ g'.nodes ∧ e.2 ∈ g'.nodes) := by
  intro deps
  induction deps with
  | nil =>
    intro g g' h hsn hinv
    cases (Except.ok.inj h)
    exact ⟨fun n hn => hn, hinv⟩
  | cons dependency rest ih =>
    intro g g' h hsn hinv
    simp only [depLoop] at h
    by_cases hmem : calc_stack_name dependency env ∈ stack_names
    · rw [if_pos hmem] at h
      by_cases hdis : calc_stack_name dependency env ∈ disabled_stack_names
      · rw [if_pos hdis] at h
        exact Except.noConfusion h
      · rw [if_neg hdis] at h
        have hstep := ih
          { nodes := addNode g.nodes (calc_stack_name dependency env)
            edges := g.edges ++ [(stack_name, calc_stack_name dependency env)] } g' h
          (mem_addNode_of_mem _ _ _ hsn) ?_
        · exact ⟨fun n hn => hstep.1 n (mem_addNode_of_mem _ _ _ hn), hstep.2⟩
        · intro e he
          rcases List.mem_append.mp he with hold | hnew
          · rcases hinv e hold with ⟨h1, h2⟩
            exact ⟨mem_addNode_of_mem _ _ _ h1, mem_addNode_of_mem _ _ _ h2⟩
          · rcases List.mem_singleton.mp hnew with rfl
            exact ⟨mem_addNode_of_mem _ _ _ hsn, mem_addNode_self _ _⟩
    · rw [if_neg hmem] at h
      exact Except.noConfusion h

theorem buildLoop_inv (stack_names disabled_stack_names : List String)
    (env : Option String) :
    ∀ (stackList : List StackDef) (g g' : DepGraph),
      buildLoop stack_names disabled_stack_names env stackList g = .ok g' →
      (∀ e ∈ g.edges, e.1 ∈ g.nodes ∧ e.2 ∈ g.nodes) →
      (∀ e ∈ g'.edges, e.1 ∈ g'.nodes ∧ e.2 ∈ g'.nodes) := by
  intro stackList
  induction stackList with
  | nil =>
    intro g g' h hinv
    cases (Except.ok.inj h)
    exact hinv
  | cons stack rest ih =>
    intro g g' h hinv
    simp only [buildLoop] at h
    cases hdep : depLoop stack_names disabled_stack_names env
        (calc_stack_name stack.stack_name env) stack.dependencies
        { g with nodes := addNode g.nodes (calc_stack_name stack.stack_name env) } with
    | error e =>
      simp only [hdep] at h
      exact Except.noConfusion h
    | ok g2 =>
      simp only [hdep] at h
      have hstep := depLoop_inv stack_names disabled_stack_names env
        (calc_stack_name stack.stack_name env) stack.dependencies _ g2 hdep
        (mem_addNode_self _ _) ?_
      · exact ih g2 g' h hstep.2
      · intro e he
        rcases hinv e he with ⟨h1, h2⟩
        exact ⟨mem_addNode_of_mem _ _ _ h1, mem_addNode_of_mem _ _ _ h2⟩

theorem buildDependencyGraph_edges_in_nodes (stackDefs : List StackDef)
    (env : Option String) (G : DepGraph)
    (h : buildDependencyGraph stackDefs env = .ok G) :
    ∀ e ∈ G.edges, e.1 ∈ G.nodes ∧ e.2 ∈ G.nodes := by
  refine buildLoop_inv _ _ env stackDefs { nodes := [], edges := [] } G h ?_
  intro e he
  cases he

/-- C2: over any stack configuration whose graph builds and schedules (i.e. is
acyclic), every stack receives a generation index, and every stack's
generation index is strictly greater than that of each of its dependencies —
all dependencies lie in generations `0..k-1`. -/
theorem C2_schedule_strictly_after_dependencies
    (stackDefs : List StackDef) (env : Option String) (G : DepGraph)
    (rgens : List (List String))
    (hbuild : buildDependencyGraph stackDefs env = .ok G)
    (hsched : scheduleGenerations G = some rgens) :
    (∀ n ∈ G.nodes, ∃ i, genIndexOf rgens n = some i) ∧
    (∀ s d, (s, d) ∈ G.edges →
      ∃ i j, genIndexOf rgens s = some i ∧ genIndexOf rgens d = some j ∧ j < i) := by
  simp only [scheduleGenerations] at hsched
  cases htopo : topoGenerationsAux G.edges G.nodes.length G.nodes with
  | none =>
    simp only [htopo] at hsched
    exact Option.noConfusion hsched
  | some gens =>
    simp only [htopo] at hsched
    have hrg : rgens = gens.reverse := (Option.some.inj hsched).symm
    subst hrg
    have hdis := topoAux_disjoint G.edges _ _ _ htopo
    constructor
    · intro n hn
      rcases topoAux_covers G.edges _ _ _ htopo n hn with ⟨i, hi⟩
      exact ⟨_, genIndexOf_reverse gens n i hdis hi⟩
    · intro s d he
      have hep := buildDependencyGraph_edges_in_nodes stackDefs env G hbuild (s, d) he
      rcases topoAux_edge_order G.edges _ _ _ htopo s d he hep.1 hep.2 with
        ⟨i, j, hi, hj, hij⟩
      refine ⟨gens.length - 1 - i, gens.length - 1 - j,
        genIndexOf_reverse gens s i hdis hi, genIndexOf_reverse gens d j hdis hj, ?_⟩
      have hjlen := genIndexOf_lt_length gens d j hj
      omega

/-- Witness for C2: for `stack-a` depending on `stack-b`, `stack-b` is
scheduled in a strictly earlier generation. -/
theorem C2_witness :
    ∃ i j,
      genIndexOf [["stack-b-development"], ["stack-a-development"]]
        "stack-a-development" = some i ∧
      genIndexOf [["stack-b-development"], ["stack-a-development"]]
        "stack-b-development" = some j ∧ j < i :=
  (C2_schedule_strictly_after_dependencies
    [ { stack_name := "stack-a", template_file := none, parameters := [],
        dependencies := ["stack-b"], disabled := false },
      { stack_name := "stack-b", template_file := none, parameters := [],
        dependencies := [], disabled := false } ]
    (some "development")
    { nodes := ["stack-a-development", "stack-b-development"]
      edges := [("stack-a-development", "stack-b-development")] }
    [["stack-b-development"], ["stack-a-development"]]
    rfl rfl).2 "stack-a-development" "stack-b-development" (by simp)

/-! ## Claim C3 — generation 0 versus zero-dependency stacks -/

/-- C3 counterexample: with `stack-a → stack-b` and an isolated `stack-c`, the
scheduler (reversed `topological_generations`) puts `stack-c` — a stack with
zero dependencies and zero outgoing edges — into generation 1, not
generation 0: generation 0 does not contain *exactly* the zero-dependency
stacks, and `stack-c`'s generation is not one more than the maximum over its
(empty) dependency set. -/
theorem C3_counterexample :
    buildDependencyGraph
        [ { stack_name := "stack-a", template_file := none, parameters := [],
            dependencies := ["stack-b"], disabled := false },
          { stack_name := "stack-b", template_file := none, parameters := [],
            dependencies := [], disabled := false },
          { stack_name := "stack-c", template_file := none, parameters := [],
            dependencies := [], disabled := false } ]
        (some "development") =
      .ok { nodes := ["stack-a-development", "stack-b-development", "stack-c-development"]
            edges := [("stack-a-development", "stack-b-development")] } ∧
    scheduleGenerations
        { nodes := ["stack-a-development", "stack-b-development", "stack-c-development"]
          edges := [("stack-a-development", "stack-b-development")] } =
      some [["stack-b-development"], ["stack-a-development", "stack-c-development"]] ∧
    List.filter (fun e => e.1 == "stack-c-development")
        [("stack-a-development", "stack-b-development")] = [] ∧
    genIndexOf [["stack-b-development"], ["stack-a-development", "stack-c-development"]]
        "stack-c-development" = some 1 := by
  refine ⟨rfl, rfl, rfl, ?_⟩
  decide

/-- C3 (amended): generation 0 contains **only** stacks with zero dependencies
(but not necessarily all of them), and every stack's generation index is
strictly greater than that of each of its dependencies (but not necessarily
exactly one greater). -/
theorem C3_amended_generation_zero_only_independent
    (stackDefs : List StackDef) (env : Option String) (G : DepGraph)
    (rgens : List (List String))
    (hbuild : buildDependencyGraph stackDefs env = .ok G)
    (hsched : scheduleGenerations G = some rgens) :
    (∀ s d (h0 : 0 < rgens.length),
      s ∈ rgens.get ⟨0, h0⟩ → (s, d) ∈ G.edges → False) ∧
    (∀ s d, (s, d) ∈ G.edges →
      ∃ i j, genIndexOf rgens s = some i ∧ genIndexOf rgens d = some j ∧ j < i) := by
  simp only [scheduleGenerations] at hsched
  cases htopo : topoGenerationsAux G.edges G.nodes.length G.nodes with
  | none =>
    simp only [htopo] at hsched
    exact Option.noConfusion hsched
  | some gens =>
    simp only [htopo] at hsched
    have hrg : rgens = gens.reverse := (Option.some.inj hsched).symm
    subst hrg
    have hdis := topoAux_disjoint G.edges _ _ _ htopo
    constructor
    · intro s d h0 hs he
      have hlen : 0 < gens.length := by simpa using h0
      have hget : gens.reverse.get ⟨0, h0⟩ = gens.get ⟨gens.length - 1, by omega⟩ := by
        have := List.get_reverse gens (gens.length - 1) (by simp; omega) (by omega)
        simpa [Nat.sub_sub_self (Nat.le_of_lt_succ (Nat.lt_succ_of_lt hlen))] using this
      rw [hget] at hs
      have hidx : genIndexOf gens s = some (gens.length - 1) :=
        genIndexOf_of_get gens s hdis _ _ hs
      have hep := buildDependencyGraph_edges_in_nodes stackDefs env G hbuild (s, d) he
      rcases topoAux_edge_order G.edges _ _ _ htopo s d he hep.1 hep.2 with
        ⟨i, j, hi, hj, hij⟩
      have hj2 := genIndexOf_lt_length gens d j hj
      rw [hidx] at hi
      cases Option.some.inj hi
      omega
    · intro s d he
      have hep := buildDependencyGraph_edges_in_nodes stackDefs env G hbuild (s, d) he
      rcases topoAux_edge_order G.edges _ _ _ htopo s d he hep.1 hep.2 with
        ⟨i, j, hi, hj, hij⟩
      refine ⟨gens.length - 1 - i, gens.length - 1 - j,
        genIndexOf_reverse gens s i hdis hi, genIndexOf_reverse gens d j hdis hj, ?_⟩
      have hjlen := genIndexOf_lt_length gens d j hj
      omega

/-- Witness for the amended C3, on the counterexample's three-stack graph:
`stack-a` is scheduled strictly after its dependency `stack-b`. -/
theorem C3_witness :
    ∃ i j,
      genIndexOf [["stack-b-development"], ["stack-a-development", "stack-c-development"]]
        "stack-a-development" = some i ∧
      genIndexOf [["stack-b-development"], ["stack-a-development", "stack-c-development"]]
        "stack-b-development" = some j ∧ j < i :=
  (C3_amended_generation_zero_only_independent
    [ { stack_name := "stack-a", template_file := none, parameters := [],
        dependencies := ["stack-b"], disabled := false },
      { stack_name := "stack-b", template_file := none, parameters := [],
        dependencies := [], disabled := false },
      { stack_name := "stack-c", template_file := none, parameters := [],
        dependencies := [], disabled := false } ]
    (some "development")
    { nodes := ["stack-a-development", "stack-b-development", "stack-c-development"]
      edges := [("stack-a-development", "stack-b-development")] }
    [["stack-b-development"], ["stack-a-development", "stack-c-development"]]
    rfl rfl).2 "stack-a-development" "stack-b-development" (by simp)

/-! ## Claim C4 — the per-generation dependency-completion gate -/

/-- With a target filter active the eligibility check never fires. -/
theorem firstMissingDeps_bypassed (G : DepGraph) (succ : List String) :
    ∀ gen, firstMissingDeps G true succ gen = none := by
  intro gen
  induction gen with
  | nil => rfl
  | cons c rest ih =>
    simp only [firstMissingDeps]
    rw [if_neg (by simp)]
    exact ih

/-- Without a target filter, an offending candidate makes the eligibility loop
return the first offending candidate together with its exact missing
dependencies. -/
theorem firstMissingDeps_finds (G : DepGraph) (succ : List String) :
    ∀ gen c, c ∈ gen → (∃ d ∈ descendants G c, d ∉ succ) →
      ∃ c' missing, firstMissingDeps G false succ gen = some (c', missing) ∧
        c' ∈ gen ∧
        missing = (descendants G c').filter (fun d => !(succ.contains d)) ∧
        missing ≠ [] := by
  intro gen
  induction gen with
  | nil => intro c hc; cases hc
  | cons c0 rest ih =>
    intro c hc hd
    by_cases hm : ((descendants G c0).filter (fun d => !(succ.contains d))).isEmpty = true
    · have hc0 : c ≠ c0 := by
        intro he
        subst he
        rcases hd with ⟨d, hdd, hds⟩
        have hdm : d ∈ (descendants G c).filter (fun d => !(succ.contains d)) :=
          List.mem_filter.mpr ⟨hdd, by
            simp only [Bool.not_eq_true', ← Bool.not_eq_true]
            intro hcon
            exact hds (List.elem_iff.mp hcon)⟩
        rw [List.isEmpty_iff] at hm
        rw [hm] at hdm
        cases hdm
      have hcr : c ∈ rest := by
        rcases List.mem_cons.mp hc with h | h
        · exact absurd h hc0
        · exact h
      rcases ih c hcr hd with ⟨c', missing, hfind, hc', hmiss, hne⟩
      refine ⟨c', missing, ?_, List.mem_cons_of_mem _ hc', hmiss, hne⟩
      simp only [firstMissingDeps]
      rw [if_neg (by rw [hm]; simp)]
      exact hfind
    · have hm' : ((descendants G c0).filter (fun d => !(succ.contains d))).isEmpty = false := by
        simpa using hm
      refine ⟨c0, _, ?_, List.mem_cons_self _ _, rfl, by simpa [List.isEmpty_iff] using hm⟩
      simp only [firstMissingDeps]
      rw [if_pos (by rw [hm']; rfl)]

/-- With a target filter the whole generation loop always completes. -/
theorem deployGenerations_target_ok (G : DepGraph) (outcome : String → Bool) (t : String) :
    ∀ (gens : List (List String)) (st : RunState),
      ∃ st', deployGenerations G outcome (some t) gens st = .ok st' := by
  intro gens
  induction gens with
  | nil => intro st; exact ⟨st, rfl⟩
  | cons gen rest ih =>
    intro st
    simp only [deployGenerations, Option.isSome_some, firstMissingDeps_bypassed]
    exact ih _

/-- C4: without a target filter, a generation containing a candidate whose
transitive dependencies are not all in the succeeded set aborts the run with
an error naming the (first such) candidate and exactly its missing
dependencies, keeping the run state — so neither that generation nor any
later one dispatches anything; with a target filter the dependency-completion
check is bypassed entirely and the loop always completes. -/
theorem C4_missing_dependency_gate (G : DepGraph) (outcome : String → Bool) :
    (∀ (st : RunState) (gen : List String) (rest : List (List String)) (c : String),
      c ∈ gen → (∃ d ∈ descendants G c, d ∉ st.successful_stacks) →
      ∃ c' missing,
        deployGenerations G outcome none (gen :: rest) st =
          .error (.missingDependencies c' missing st) ∧
        c' ∈ gen ∧
        missing = (descendants G c').filter
          (fun d => !(st.successful_stacks.contains d)) ∧
        missing ≠ []) ∧
    (∀ (t : String) (gens : List (List String)) (st : RunState),
      ∃ st', deployGenerations G outcome (some t) gens st = .ok st') := by
  constructor
  · intro st gen rest c hc hd
    rcases firstMissingDeps_finds G st.successful_stacks gen c hc hd with
      ⟨c', missing, hfind, hc', hmiss, hne⟩
    refine ⟨c', missing, ?_, hc', hmiss, hne⟩
    simp only [deployGenerations, Option.isSome_none, hfind]
  · exact fun t gens st => deployGenerations_target_ok G outcome t gens st

/-- Witness for C4: after `stack-a` failed in generation 0, processing the
generation holding `stack-b` (which depends on `stack-a`) aborts with the
missing-dependency error and an unchanged run state. -/
theorem C4_witness :
    ∃ c' missing,
      deployGenerations
          { nodes := ["stack-a-development", "stack-b-development"]
            edges := [("stack-b-development", "stack-a-development")] }
          (fun _ => false) none [["stack-b-development"]]
          { dispatched := ["stack-a-development"], successful_stacks := [],
            failed_stacks := ["stack-a-development"] } =
        .error (.missingDependencies c' missing
          { dispatched := ["stack-a-development"], successful_stacks := [],
            failed_stacks := ["stack-a-development"] }) ∧
      c' ∈ ["stack-b-development"] ∧
      missing = (descendants
          { nodes := ["stack-a-development", "stack-b-development"]
            edges := [("stack-b-development", "stack-a-development")] } c').filter
        (fun d => !(([] : List String).contains d)) ∧
      missing ≠ [] :=
  (C4_missing_dependency_gate
    { nodes := ["stack-a-development", "stack-b-development"]
      edges := [("stack-b-development", "stack-a-development")] }
    (fun _ => false)).1
    { dispatched := ["stack-a-development"], successful_stacks := [],
      failed_stacks := ["stack-a-development"] }
    ["stack-b-development"] [] "stack-b-development" (by decide)
    ⟨"stack-a-development", by decide, by decide⟩

end DeployCfn
